import Mathlib

/-!
Shallow embedding of the Uniswap price-oracle engine of
`rotkehlchen/chain/ethereum/oracles/uniswap.py` (the AMM multi-hop
price-routing and pool-price resolution engine), together with theorems
settling the spec claims about it.

Modelling conventions:
* On-chain addresses are plain strings; `to_checksum_address` is modelled as
  the identity on already-checksummed address strings.
* `FVal` (arbitrary-precision decimal) arithmetic is modelled exactly over `ℚ`.
* The blockchain collaborators (`get_pool`'s factory/registry lookups,
  liquidity reads, USD spot-price lookups) are parameters of the embedded
  functions: a "behaviour" is an arbitrary pure function standing for the
  point-in-time answers of the node.
* `find_route` is additionally instrumented with a trace listing, in order,
  the argument pairs of every `get_pool` call it performs; the route itself
  is the first component and ignores the trace.
-/

abbrev Address := String

/-- `ZERO_ADDRESS` from `rotkehlchen/chain/evm/constants.py`: the null address. -/
def ZERO_ADDRESS : Address := "0x0000000000000000000000000000000000000000"

/-- Token-standard tag (`EvmTokenKind`); the oracle only supports ERC20. -/
inductive EvmTokenKind where
  | erc20
  | erc721
deriving DecidableEq, Repr

/-- The fields of `EvmToken` the oracle engine reads: the chain address,
the (possibly unknown) decimal precision, and the token-kind tag. -/
structure EvmToken where
  address : String
  decimals : Option Nat
  token_kind : EvmTokenKind
deriving DecidableEq, Repr

instance : Inhabited EvmToken := ⟨⟨"", none, .erc20⟩⟩

/-- `A_WETH.resolve_to_evm_token()`: the canonical wrapped native coin. -/
def A_WETH : EvmToken := ⟨"0xC02aaA39b223FE8D0A0e5C4F27eAD9083C756Cc2", some 18, .erc20⟩

/-- `A_DAI.resolve_to_evm_token()`. -/
def A_DAI : EvmToken := ⟨"0x6B175474E89094C44Da98b954EedeAC495271d0F", some 18, .erc20⟩

/-- `A_USDT.resolve_to_evm_token()`. -/
def A_USDT : EvmToken := ⟨"0xdAC17F958D2ee523a2206206994597C13D831ec7", some 6, .erc20⟩

/-- `self.routing_assets` set in `UniswapOracle.__init__`: WETH, DAI, USDT
in this fixed order. -/
def routing_assets : List EvmToken := [A_WETH, A_DAI, A_USDT]

/-- `PoolPrice` NamedTuple: a pool's price (units of `token_1` per one
`token_0`) together with the pool's own token ordering. -/
structure PoolPrice where
  price : ℚ
  token_0 : EvmToken
  token_1 : EvmToken
deriving DecidableEq, Repr

instance : Inhabited PoolPrice := ⟨⟨0, default, default⟩⟩

/-- `PoolPrice.swap_tokens`: `{price: 1/price, token_0: token_1, token_1: token_0}`. -/
def PoolPrice.swap_tokens (p : PoolPrice) : PoolPrice :=
  { price := 1 / p.price, token_0 := p.token_1, token_1 := p.token_0 }

/-- A behaviour for the abstract `get_pool` collaborator: for two tokens,
the list of candidate pool addresses the concrete variant would return. -/
abbrev GetPool := EvmToken → EvmToken → List Address

/-- A `get_pool` call recorded in the trace: the `(asset, link_asset)` pair. -/
abbrev PoolCall := EvmToken × EvmToken

/-- The first pool in `get_pool asset link` that is not the null address
(the pool `_find_pool_for`'s loop would append). -/
def firstValidPool (g : GetPool) (asset link_asset : EvmToken) : Option Address :=
  (g asset link_asset).find? (fun p => p != ZERO_ADDRESS)

/-- `UniswapOracle._find_pool_for`: appends the first non-null pool for the
pair to `path` and reports whether one was found. -/
def find_pool_for (g : GetPool) (asset link_asset : EvmToken) (path : List Address) :
    Bool × List Address :=
  match firstValidPool g asset link_asset with
  | some pool => (true, path ++ [pool])
  | none => (false, path)

/-- The loop state of `find_route`'s first bridge loop: the accumulated
`output` path, the latest `found_first_link` flag, the latest `link_asset`,
and the instrumentation trace of `get_pool` calls so far. -/
structure RouteState where
  output : List Address
  found_first_link : Bool
  link_asset : Option EvmToken
  trace : List PoolCall

/-- First bridge loop of `find_route` (lines 132-147): for each bridge asset
distinct from `from_asset`, try the first hop `from_asset↔asset`; on success
record `link_asset` and try the second hop `to_asset↔asset`, returning the
route on success. Note the loop has no break: it continues to later bridge
assets even after a first hop succeeded, reassigning `found_first_link` (and,
on success, `link_asset`) each iteration. -/
def phase1 (g : GetPool) (from_asset to_asset : EvmToken) :
    List EvmToken → RouteState → RouteState ⊕ (List Address × List PoolCall)
  | [], st => .inl st
  | asset :: rest, st =>
    if asset ≠ from_asset then
      let r1 := find_pool_for g from_asset asset st.output
      let tr1 := st.trace ++ [(from_asset, asset)]
      if r1.1 then
        let r2 := find_pool_for g to_asset asset r1.2
        let tr2 := tr1 ++ [(to_asset, asset)]
        if r2.1 then
          .inr (r2.2, tr2)
        else
          phase1 g from_asset to_asset rest
            { output := r2.2, found_first_link := true, link_asset := some asset, trace := tr2 }
      else
        phase1 g from_asset to_asset rest
          { output := r1.2, found_first_link := false, link_asset := st.link_asset, trace := tr1 }
    else
      phase1 g from_asset to_asset rest st

/-- Second bridge loop of `find_route` (lines 156-165): find the first bridge
asset distinct from `to_asset` with a pool against `to_asset`, breaking on
success. -/
def phase2 (g : GetPool) (to_asset : EvmToken) :
    List EvmToken → List Address → List PoolCall →
    Option EvmToken × List Address × List PoolCall
  | [], output, trace => (none, output, trace)
  | asset :: rest, output, trace =>
    if asset ≠ to_asset then
      let r := find_pool_for g to_asset asset output
      let tr := trace ++ [(to_asset, asset)]
      if r.1 then (some asset, r.2, tr)
      else phase2 g to_asset rest r.2 tr
    else phase2 g to_asset rest output trace

/-- Python `output.insert(1, pool)`: insert at index 1. -/
def insertAt1 (pool : Address) (l : List Address) : List Address :=
  l.take 1 ++ pool :: l.drop 1

/-- The part of `find_route` after the first bridge loop (lines 149-179):
return empty unless the last first-hop attempt succeeded; otherwise run the
second bridge loop, then the closing hop `link_asset↔second_link_asset`,
inserting its pool at position 1 of the accumulated output. -/
def route_tail (g : GetPool) (to_asset : EvmToken) :
    RouteState ⊕ (List Address × List PoolCall) → List Address × List PoolCall
  | .inr (route, tr) => (route, tr)
  | .inl st =>
    if st.found_first_link then
      match phase2 g to_asset routing_assets st.output st.trace with
      | (none, _, tr) => ([], tr)
      | (some second_link_asset, output, tr) =>
        let link_asset := st.link_asset.getD default
        let tr2 := tr ++ [(link_asset, second_link_asset)]
        match firstValidPool g link_asset second_link_asset with
        | some pool => (insertAt1 pool output, tr2)
        | none => ([], tr2)
    else ([], st.trace)

/-- `UniswapOracle.find_route`, instrumented with the ordered trace of the
`get_pool` calls it makes. Step 0 (lines 115-123): if either asset is a
routing asset, try the direct hop first. Then the same-token check, the
first bridge loop, and `route_tail`. -/
def find_route_trace (g : GetPool) (from_asset to_asset : EvmToken) :
    List Address × List PoolCall :=
  let inGlue := to_asset ∈ routing_assets ∨ from_asset ∈ routing_assets
  let tr0 : List PoolCall := if inGlue then [(from_asset, to_asset)] else []
  let step0 := if inGlue then find_pool_for g from_asset to_asset [] else (false, [])
  if step0.1 then (step0.2, tr0)
  else if from_asset = to_asset then ([], tr0)
  else route_tail g to_asset
    (phase1 g from_asset to_asset routing_assets
      { output := [], found_first_link := false, link_asset := none, trace := tr0 })

/-- `UniswapOracle.find_route`: the list of pool addresses to hop through. -/
def find_route (g : GetPool) (from_asset to_asset : EvmToken) : List Address :=
  (find_route_trace g from_asset to_asset).1

/-! ## Pool resolvers and pool prices (V2 and V3 variants) -/

/-- Pool-state failures (`DefiPoolError`), one constructor per raise site of
the excerpt's `get_pool_price` implementations. -/
inductive DefiPoolError where
  | unresolvableToken
  | noneDecimals
  | noReserves
  | tooLowReserves
  | priceZero
deriving DecidableEq, Repr

/-- `SINGLE_SIDE_USD_POOL_LIMIT` (line 31). -/
def SINGLE_SIDE_USD_POOL_LIMIT : ℚ := 5000

/-- Modelled from the spec: `token_normalized_value` (defined outside the
excerpt, in `rotkehlchen/chain/ethereum/utils.py`) — the decimal
normalization of a raw on-chain token amount: `amount / 10^decimals`. -/
def token_normalized_value (amount : ℕ) (decimals : ℕ) : ℚ :=
  (amount : ℚ) / 10 ^ decimals

/-- `UniswapV2Oracle.get_pool`: one factory `getPair` lookup, whose result is
returned as a one-element list unconditionally (lines 396-404). `getPair`
models the factory registry behaviour. -/
def v2_get_pool (getPair : EvmToken → EvmToken → Address)
    (token_0 token_1 : EvmToken) : List Address :=
  [getPair token_0 token_1]

/-- `UniswapV2Oracle.get_pool_price` (lines 406-477), with the on-chain pool
state (the two resolved constituent tokens and the raw reserves) and the USD
spot-price collaborator `usd` as parameters. Token resolution failures are
covered by the `Option` tokens. -/
def v2_get_pool_price (token_0 token_1 : Option EvmToken) (reserve_0 reserve_1 : ℕ)
    (usd : EvmToken → ℚ) : Except DefiPoolError PoolPrice :=
  match token_0 with
  | none => .error .unresolvableToken
  | some token_0 =>
    match token_1 with
    | none => .error .unresolvableToken
    | some token_1 =>
      match token_0.decimals, token_1.decimals with
      | some d0, some d1 =>
        if reserve_0 = 0 ∨ reserve_1 = 0 then .error .noReserves
        else
          let price_0 := usd token_0
          let price_1 := usd token_1
          if price_0 ≠ 0 ∧ price_0 * token_normalized_value reserve_0 d0 < SINGLE_SIDE_USD_POOL_LIMIT then
            .error .tooLowReserves
          else if price_1 ≠ 0 ∧ price_1 * token_normalized_value reserve_1 d1 < SINGLE_SIDE_USD_POOL_LIMIT then
            .error .tooLowReserves
          else
            .ok { price := ((reserve_1 : ℚ) / reserve_0) * 10 ^ ((d0 : ℤ) - d1),
                  token_0 := token_0, token_1 := token_1 }
      | _, _ => .error .noneDecimals

/-- The three fee tiers `UniswapV3Oracle.get_pool` queries, in source order. -/
def v3_fee_tiers : List ℕ := [3000, 500, 10000]

/-- `UniswapV3Oracle.get_pool` (lines 286-326): query the factory at the
three fee tiers, skip null candidates, keep the candidate with strictly the
highest liquidity, and return it as a singleton unless the best liquidity is
zero. `factory fee` is the factory `getPool` answer for one fee tier and
`liquidity` the pool contract's `liquidity()` answer. -/
def v3_get_pool (factory : ℕ → Address) (liquidity : Address → ℕ) : List Address :=
  let result := v3_fee_tiers.map factory
  let final := result.foldl
    (fun (acc : Address × ℕ) query =>
      if query = ZERO_ADDRESS then acc
      else if liquidity query > acc.2 then (query, liquidity query) else acc)
    (result.getD 0 default, 0)
  if final.2 = 0 then [] else [final.1]

/-- `UniswapV3Oracle.get_pool_price` (lines 328-380): decode `slot0`'s
`sqrt_price_x96` and both tokens, fail on unknown decimals, compute
`sqrtPriceX96^2 / 2^192 * 10^(d0-d1)`, and fail if that price is zero. -/
def v3_get_pool_price (token_0 token_1 : EvmToken) (sqrt_price_x96 : ℕ) :
    Except DefiPoolError PoolPrice :=
  match token_0.decimals, token_1.decimals with
  | some d0, some d1 =>
    let price : ℚ := ((sqrt_price_x96 : ℚ) * sqrt_price_x96) / 2 ^ 192 * 10 ^ ((d0 : ℤ) - d1)
    if price = 0 then .error .priceZero
    else .ok { price := price, token_0 := token_0, token_1 := token_1 }
  | _, _ => .error .noneDecimals

/-! ## Price composition and the facade (`UniswapOracle.get_price`) -/

/-- Head orientation check of `get_price` (lines 235-236): if the first
pool's `token_0` is not `from_token`, invert the first pool. -/
def head_pass (from_token : EvmToken) : List PoolPrice → List PoolPrice
  | [] => []
  | it :: rest => if it.token_0 ≠ from_token then it.swap_tokens :: rest else it :: rest

/-- One iteration of the interior orientation loop (lines 239-241) at
position `pos` of the frozen slice: Python reads the frozen slice element
`item`, and compares/overwrites the live list at index `pos - 1` — which for
`pos = 0` is Python index `-1`, the last element. -/
def interior_step (slice : List PoolPrice) (cur : List PoolPrice) (pos : ℕ) :
    List PoolPrice :=
  let item := slice.getD pos default
  let idx := if pos = 0 then cur.length - 1 else pos - 1
  if item.token_0 ≠ (cur.getD idx default).token_1 then
    cur.set idx (cur.getD idx default).swap_tokens
  else cur

/-- Interior orientation loop of `get_price` (lines 239-241): iterate over
the frozen slice `prices_and_tokens[1:-1]`, mutating the live list. -/
def interior_pass (l : List PoolPrice) : List PoolPrice :=
  let slice := (l.drop 1).take (l.length - 2)
  (List.range slice.length).foldl (interior_step slice) l

/-- Tail orientation check of `get_price` (lines 244-245): if the last
pool's `token_1` is not `to_token`, invert the last pool. -/
def tail_pass (to_token : EvmToken) (l : List PoolPrice) : List PoolPrice :=
  if (l.getD (l.length - 1) default).token_1 ≠ to_token then
    l.set (l.length - 1) (l.getD (l.length - 1) default).swap_tokens
  else l

/-- The full orientation pipeline of `get_price` (lines 234-245). -/
def composePrices (from_token to_token : EvmToken) (items : List PoolPrice) :
    List PoolPrice :=
  tail_pass to_token (interior_pass (head_pass from_token items))

/-- An asset as `get_price` receives it: the native coin, an EVM token, or
an asset that fails `resolve_to_evm_token` (raising `WrongAssetType`). -/
inductive UniAsset where
  | eth
  | token (t : EvmToken)
  | nonEvm (id : String)
deriving DecidableEq, Repr

/-- Failures of `get_price`: `PriceQueryUnsupportedAsset` or a propagated
`DefiPoolError` from a pool-price fetch. -/
inductive PriceError where
  | unsupportedAsset
  | pool (e : DefiPoolError)
deriving DecidableEq, Repr

/-- A behaviour for the abstract `get_pool_price` collaborator: the decoded
`PoolPrice` (or pool-state error) for each pool address. -/
abbrev GetPoolPrice := Address → Except DefiPoolError PoolPrice

/-- `UniswapOracle.get_price` (lines 181-248): substitute WETH for ETH,
resolve both assets, short-circuit equal tokens to price 1, reject non-ERC20
kinds, find a route (empty route = price 0), fetch every hop's pool price,
orient, and multiply. -/
def get_price (g : GetPool) (h : GetPoolPrice) (from_asset to_asset : UniAsset) :
    Except PriceError ℚ :=
  let from_asset := if from_asset = .eth then .token A_WETH else from_asset
  let to_asset := if to_asset = .eth then .token A_WETH else to_asset
  match from_asset, to_asset with
  | .token from_token, .token to_token =>
    if from_token = to_token then .ok 1
    else if from_token.token_kind ≠ .erc20 ∨ to_token.token_kind ≠ .erc20 then
      .error .unsupportedAsset
    else
      let route := find_route g from_token to_token
      if route.length = 0 then .ok 0
      else
        match route.mapM h with
        | .error e => .error (.pool e)
        | .ok prices_and_tokens =>
          let oriented := composePrices from_token to_token prices_and_tokens
          .ok ((oriented.map PoolPrice.price).foldl (fun a b => a * b) 1)
  | _, _ => .error .unsupportedAsset

/-- The oracle name computed by `UniswapOracle.__init__` (line 56):
`f'Uniswap V{version} oracle'`. -/
def uniswap_oracle_name (version : ℕ) : String :=
  "Uniswap V" ++ toString version ++ " oracle"

/-- The `version` argument `UniswapV2Oracle.__init__` passes to the shared
base constructor (line 386). -/
def UniswapV2Oracle_version : ℕ := 3

/-- The `version` argument `UniswapV3Oracle.__init__` passes to the shared
base constructor (line 282). -/
def UniswapV3Oracle_version : ℕ := 3

/-! ## Concrete tokens and behaviours used in counterexamples and witnesses -/

/-- A concrete non-bridge ERC20 source token. -/
def tokF : EvmToken := ⟨"0xF", some 18, .erc20⟩

/-- A concrete non-bridge ERC20 destination token. -/
def tokT : EvmToken := ⟨"0xT", some 18, .erc20⟩

/-- A `get_pool` behaviour in which the first hop to WETH succeeds, its
second hop fails, and the DAI bridge then closes a two-hop path. -/
def gC1 : GetPool := fun a b =>
  if a = tokF ∧ b = A_WETH then ["0xPoolFW"]
  else if a = tokF ∧ b = A_DAI then ["0xPoolFD"]
  else if a = tokT ∧ b = A_DAI then ["0xPoolTD"]
  else []

/-- A `get_pool` behaviour in which first hops to WETH, DAI and USDT all
succeed but only USDT's second hop does: the route accumulates the stale
WETH and DAI first-hop pools. -/
def gC2 : GetPool := fun a b =>
  if a = tokF ∧ b = A_WETH then ["0xPoolFW"]
  else if a = tokF ∧ b = A_DAI then ["0xPoolFD"]
  else if a = tokF ∧ b = A_USDT then ["0xPoolFU"]
  else if a = tokT ∧ b = A_USDT then ["0xPoolTU"]
  else []

/-- The search property claim C1 asserts of `find_route`'s two-hop search at
a given input: whenever a `get_pool` call `(from_token, B)` with a bridge
asset `B` succeeds (has a non-null pool), no strictly later `get_pool` call
in the trace is a first hop `(from_token, B')` with `B'` a bridge asset
strictly later than `B` in the fixed `routing_assets` order. -/
def claimC1SearchProp (g : GetPool) (from_token to_token : EvmToken) : Prop :=
  let tr := (find_route_trace g from_token to_token).2
  ∀ i j : Fin tr.length, (i : ℕ) < (j : ℕ) →
    (tr.get i).1 = from_token → (tr.get i).2 ∈ routing_assets →
    (firstValidPool g from_token (tr.get i).2).isSome = true →
    (tr.get j).1 = from_token → (tr.get j).2 ∈ routing_assets →
    routing_assets.indexOf (tr.get j).2 ≤ routing_assets.indexOf (tr.get i).2

instance (g : GetPool) (f t : EvmToken) : Decidable (claimC1SearchProp g f t) := by
  unfold claimC1SearchProp
  infer_instance

/-! ## Claim C1 and C2 counterexamples -/

/-- Claim C1 (counterexample): in `find_route`'s two-hop search the first
bridge asset with a successful first hop is NOT kept as the sole link asset.
Under `gC1` the first hop to WETH succeeds and its second hop fails, yet the
search goes on to try (and use) the later bridge asset DAI as a first hop:
the returned route even contains both first-hop pools. -/
theorem claim_C1_counterexample :
    ¬ claimC1SearchProp gC1 tokF tokT ∧
    find_route gC1 tokF tokT = ["0xPoolFW", "0xPoolFD", "0xPoolTD"] := by
  constructor
  · decide
  · decide

/-- A `get_pool` behaviour whose only pool is a WETH/WETH self-pool. -/
def gSelf : GetPool := fun a b =>
  if a = A_WETH ∧ b = A_WETH then ["0xPoolWW"] else []

/-- Claim C2 (counterexample), refuting both conjuncts of the claim.
Length conjunct: `find_route` can return a route of length 4 (not in
{0,1,2,3}) — under `gC2` the first hops to WETH, DAI and USDT all succeed
while only USDT's second hop does, so the stale WETH and DAI first-hop
pools remain in the returned output. Iff conjunct ("length 0 iff the two
tokens are equal or no path exists"): under `gSelf` the two input tokens
are equal (both `A_WETH`), yet the route has length 1, because the
direct-hop probe (lines 115-123) runs before the `from_asset == to_asset`
check (line 125). -/
theorem claim_C2_counterexample :
    (find_route gC2 tokF tokT = ["0xPoolFW", "0xPoolFD", "0xPoolFU", "0xPoolTU"] ∧
      (find_route gC2 tokF tokT).length = 4) ∧
    find_route gSelf A_WETH A_WETH = ["0xPoolWW"] := by
  refine ⟨⟨by decide, by decide⟩, by decide⟩

/-! ## Trace-extension and length lemmas for `find_route` -/

/-- The trace carried by a `phase1` result. -/
def p1trace : RouteState ⊕ (List Address × List PoolCall) → List PoolCall
  | .inl st => st.trace
  | .inr (_, tr) => tr

theorem phase1_trace_extend (g : GetPool) (f t : EvmToken) :
    ∀ (assets : List EvmToken) (st : RouteState),
    ∃ s, p1trace (phase1 g f t assets st) = st.trace ++ s
  | [], st => ⟨[], by simp [phase1, p1trace]⟩
  | a :: rest, st => by
    by_cases ha : a ≠ f
    · rcases h1 : firstValidPool g f a with _ | p
      · obtain ⟨s, hs⟩ := phase1_trace_extend g f t rest
          { output := st.output, found_first_link := false, link_asset := st.link_asset,
            trace := st.trace ++ [(f, a)] }
        exact ⟨(f, a) :: s, by simp [phase1, ha, find_pool_for, h1, hs]⟩
      · rcases h2 : firstValidPool g t a with _ | q
        · obtain ⟨s, hs⟩ := phase1_trace_extend g f t rest
            { output := st.output ++ [p], found_first_link := true, link_asset := some a,
              trace := st.trace ++ [(f, a), (t, a)] }
          exact ⟨(f, a) :: (t, a) :: s, by simp [phase1, ha, find_pool_for, h1, h2, hs]⟩
        · exact ⟨[(f, a), (t, a)], by simp [phase1, ha, find_pool_for, h1, h2, p1trace]⟩
    · obtain ⟨s, hs⟩ := phase1_trace_extend g f t rest st
      exact ⟨s, by simp [phase1, ha, hs]⟩

theorem phase2_trace_extend (g : GetPool) (t : EvmToken) :
    ∀ (assets : List EvmToken) (out : List Address) (tr : List PoolCall),
    ∃ s, (phase2 g t assets out tr).2.2 = tr ++ s
  | [], out, tr => ⟨[], by simp [phase2]⟩
  | a :: rest, out, tr => by
    by_cases ha : a ≠ t
    · rcases h1 : firstValidPool g t a with _ | p
      · obtain ⟨s, hs⟩ := phase2_trace_extend g t rest out (tr ++ [(t, a)])
        exact ⟨(t, a) :: s, by simp [phase2, ha, find_pool_for, h1, hs]⟩
      · exact ⟨[(t, a)], by simp [phase2, ha, find_pool_for, h1]⟩
    · obtain ⟨s, hs⟩ := phase2_trace_extend g t rest out tr
      exact ⟨s, by simp [phase2, ha, hs]⟩

theorem route_tail_trace_extend (g : GetPool) (t : EvmToken)
    (res : RouteState ⊕ (List Address × List PoolCall)) :
    ∃ s, (route_tail g t res).2 = p1trace res ++ s := by
  rcases res with st | ⟨route, tr⟩
  · by_cases hf : st.found_first_link
    · obtain ⟨s, hs⟩ := phase2_trace_extend g t routing_assets st.output st.trace
      rcases hp2 : phase2 g t routing_assets st.output st.trace with ⟨ob, out, tr⟩
      rw [hp2] at hs
      simp only at hs
      rcases ob with _ | b
      · exact ⟨s, by simp [route_tail, hf, hp2, p1trace, hs]⟩
      · rcases h3 : firstValidPool g (st.link_asset.getD default) b with _ | pool
        · exact ⟨s ++ [(st.link_asset.getD default, b)],
            by simp [route_tail, hf, hp2, h3, p1trace, hs]⟩
        · exact ⟨s ++ [(st.link_asset.getD default, b)],
            by simp [route_tail, hf, hp2, h3, p1trace, hs]⟩
    · exact ⟨[], by simp [route_tail, hf, p1trace]⟩
  · exact ⟨[], by simp [route_tail, p1trace]⟩

theorem insertAt1_length (pool : Address) (l : List Address) :
    (insertAt1 pool l).length = l.length + 1 := by
  simp [insertAt1]
  omega

/-- Whether a bridge asset would be counted as a successful first hop by
`find_route`'s first bridge loop. -/
def firstHopOk (g : GetPool) (f : EvmToken) (B : EvmToken) : Bool :=
  decide (B ≠ f) && (firstValidPool g f B).isSome

theorem phase1_inr_len (g : GetPool) (f t : EvmToken) :
    ∀ (assets : List EvmToken) (st : RouteState) (r : List Address) (tr : List PoolCall),
    phase1 g f t assets st = .inr (r, tr) →
    r.length ≤ st.output.length + assets.length + 1
  | [], st, r, tr => by simp [phase1]
  | a :: rest, st, r, tr => by
    intro h
    by_cases ha : a = f
    · simp only [phase1, ha, ne_eq, not_true_eq_false, if_false, ite_false] at h
      have := phase1_inr_len g f t rest st r tr h
      simp only [List.length_cons] at this ⊢
      omega
    · rcases h1 : firstValidPool g f a with _ | p
      · simp [phase1, ha, find_pool_for, h1] at h
        have := phase1_inr_len g f t rest _ r tr h
        simp at this
        simp only [List.length_cons]
        omega
      · rcases h2 : firstValidPool g t a with _ | q
        · simp [phase1, ha, find_pool_for, h1, h2] at h
          have := phase1_inr_len g f t rest _ r tr h
          simp at this
          simp only [List.length_cons]
          omega
        · simp [phase1, ha, find_pool_for, h1, h2] at h
          obtain ⟨hr, -⟩ := h
          subst hr
          simp

theorem phase1_inl_spec (g : GetPool) (f t : EvmToken) :
    ∀ (assets : List EvmToken) (st st' : RouteState),
    phase1 g f t assets st = .inl st' →
    st'.output.length = st.output.length + assets.countP (firstHopOk g f) ∧
    ∀ B ∈ assets, B ≠ f → (firstValidPool g f B).isSome = true →
      firstValidPool g t B = none
  | [], st, st' => by
    intro h
    simp only [phase1, Sum.inl.injEq] at h
    subst h
    simp
  | a :: rest, st, st' => by
    intro h
    by_cases ha : a = f
    · simp only [phase1, ha, ne_eq, not_true_eq_false, if_false, ite_false] at h
      obtain ⟨hlen, hall⟩ := phase1_inl_spec g f t rest st st' h
      have hpa : firstHopOk g f a = false := by simp [firstHopOk, ha]
      refine ⟨?_, ?_⟩
      · rw [List.countP_cons, hpa]
        simpa using hlen
      · intro B hB hBf hsome
        rcases List.mem_cons.mp hB with rfl | hB
        · exact absurd ha hBf
        · exact hall B hB hBf hsome
    · rcases h1 : firstValidPool g f a with _ | p
      · simp [phase1, ha, find_pool_for, h1] at h
        obtain ⟨hlen, hall⟩ := phase1_inl_spec g f t rest _ st' h
        have hpa : firstHopOk g f a = false := by simp [firstHopOk, h1]
        refine ⟨?_, ?_⟩
        · rw [List.countP_cons, hpa]
          simp only at hlen
          simpa using hlen
        · intro B hB hBf hsome
          rcases List.mem_cons.mp hB with rfl | hB
          · rw [h1] at hsome
            simp at hsome
          · exact hall B hB hBf hsome
      · rcases h2 : firstValidPool g t a with _ | q
        · simp [phase1, ha, find_pool_for, h1, h2] at h
          obtain ⟨hlen, hall⟩ := phase1_inl_spec g f t rest _ st' h
          have hpa : firstHopOk g f a = true := by simp [firstHopOk, ha, h1]
          refine ⟨?_, ?_⟩
          · rw [List.countP_cons, hpa]
            simp at hlen ⊢
            omega
          · intro B hB hBf hsome
            rcases List.mem_cons.mp hB with rfl | hB
            · exact h2
            · exact hall B hB hBf hsome
        · simp [phase1, ha, find_pool_for, h1, h2] at h

theorem phase2_some_spec (g : GetPool) (t : EvmToken) :
    ∀ (assets : List EvmToken) (out : List Address) (tr : List PoolCall)
      (b : EvmToken) (out' : List Address) (tr' : List PoolCall),
    phase2 g t assets out tr = (some b, out', tr') →
    out'.length = out.length + 1 ∧ b ∈ assets ∧ b ≠ t ∧
      (firstValidPool g t b).isSome = true
  | [], out, tr, b, out', tr' => by simp [phase2]
  | a :: rest, out, tr, b, out', tr' => by
    intro h
    by_cases ha : a = t
    · simp only [phase2, ha, ne_eq, not_true_eq_false, if_false, ite_false] at h
      obtain ⟨h1, h2, h3, h4⟩ := phase2_some_spec g t rest out tr b out' tr' h
      exact ⟨h1, List.mem_cons_of_mem _ h2, h3, h4⟩
    · rcases hp : firstValidPool g t a with _ | p
      · simp [phase2, ha, find_pool_for, hp] at h
        obtain ⟨h1, h2, h3, h4⟩ := phase2_some_spec g t rest out _ b out' tr' h
        exact ⟨h1, List.mem_cons_of_mem _ h2, h3, h4⟩
      · simp [phase2, ha, find_pool_for, hp] at h
        obtain ⟨rfl, rfl, -⟩ := h
        refine ⟨by simp, List.mem_cons_self _ _, ha, by simp [hp]⟩

theorem phase2_none_out (g : GetPool) (t : EvmToken) :
    ∀ (assets : List EvmToken) (out : List Address) (tr : List PoolCall)
      (out' : List Address) (tr' : List PoolCall),
    phase2 g t assets out tr = (none, out', tr') → out' = out
  | [], out, tr, out', tr' => by
    intro h
    simp [phase2] at h
    exact h.1.symm
  | a :: rest, out, tr, out', tr' => by
    intro h
    by_cases ha : a = t
    · simp only [phase2, ha, ne_eq, not_true_eq_false, if_false, ite_false] at h
      exact phase2_none_out g t rest out tr out' tr' h
    · rcases hp : firstValidPool g t a with _ | p
      · simp [phase2, ha, find_pool_for, hp] at h
        exact phase2_none_out g t rest out _ out' tr' h
      · simp [phase2, ha, find_pool_for, hp] at h

theorem countP_routing_le_two (p : EvmToken → Bool) (x : EvmToken)
    (hx : x ∈ routing_assets) (hpx : p x = false) :
    routing_assets.countP p ≤ 2 := by
  have : routing_assets.countP p =
      (if p A_WETH then 1 else 0) + (if p A_DAI then 1 else 0) +
        (if p A_USDT then 1 else 0) := by
    simp [routing_assets, List.countP_cons]
    split_ifs <;> simp
  rw [this]
  have hx' : x = A_WETH ∨ x = A_DAI ∨ x = A_USDT := by
    simpa [routing_assets] using hx
  rcases hx' with rfl | rfl | rfl <;> simp [hpx] <;> split_ifs <;> omega

theorem route_tail_len_le (g : GetPool) (f t : EvmToken) (st0 : RouteState)
    (h0 : st0.output = []) :
    (route_tail g t (phase1 g f t routing_assets st0)).1.length ≤ 4 := by
  rcases hres : phase1 g f t routing_assets st0 with st' | ⟨r, tr⟩
  · obtain ⟨hlen, hpure⟩ := phase1_inl_spec g f t routing_assets st0 st' hres
    rw [h0] at hlen
    simp only [List.length_nil, Nat.zero_add] at hlen
    by_cases hf : st'.found_first_link
    · rcases hp2 : phase2 g t routing_assets st'.output st'.trace with ⟨ob, out, tr2⟩
      rcases ob with _ | b
      · simp [route_tail, hf, hp2]
      · obtain ⟨hl2, hmem, hbt, hbsome⟩ :=
          phase2_some_spec g t routing_assets st'.output st'.trace b out tr2 hp2
        have hcount : routing_assets.countP (firstHopOk g f) ≤ 2 := by
          refine countP_routing_le_two _ b hmem ?_
          by_cases hbf : b = f
          · simp [firstHopOk, hbf]
          · have : ¬((firstValidPool g f b).isSome = true) := fun hs =>
              (by simp [hpure b hmem hbf hs] : ¬(firstValidPool g t b).isSome = true) hbsome
            simp [firstHopOk, hbf]
            simpa using this
        rcases h3 : firstValidPool g (st'.link_asset.getD default) b with _ | pool
        · simp [route_tail, hf, hp2, h3]
        · simp only [route_tail, hf, hp2, h3, if_true, ite_true]
          rw [insertAt1_length]
          omega
    · simp [route_tail, hf]
  · have := phase1_inr_len g f t routing_assets st0 r tr hres
    rw [h0] at this
    simp only [List.length_nil, Nat.zero_add, routing_assets, List.length_cons,
      List.length_nil] at this
    simpa [route_tail] using this

/-- Claim C2 (amended): for every behaviour of `get_pool` and every pair of
input tokens, `find_route` returns a list of pool addresses whose length is
at most 4 — not at most 3 as claimed: the missing break in the first bridge
loop can leave one stale first-hop pool in the output (see the
counterexample, where length 4 is attained). -/
theorem claim_C2 (g : GetPool) (a b : EvmToken) :
    (find_route g a b).length ≤ 4 := by
  have hfp : ∀ x y : EvmToken, ((find_pool_for g x y []).2).length ≤ 4 := by
    intro x y
    rcases h : firstValidPool g x y with _ | p <;> simp [find_pool_for, h]
  simp only [find_route, find_route_trace]
  split_ifs with h1 h2 h3
  all_goals first
    | exact hfp a b
    | exact route_tail_len_le g a b
        { output := [], found_first_link := false, link_asset := none, trace := [(a, b)] } rfl
    | exact route_tail_len_le g a b
        { output := [], found_first_link := false, link_asset := none, trace := [] } rfl
    | simp

theorem route_tail_phase1_trace (g : GetPool) (f t : EvmToken)
    (assets : List EvmToken) (st : RouteState) :
    ∃ s, (route_tail g t (phase1 g f t assets st)).2 = st.trace ++ s := by
  obtain ⟨s1, h1⟩ := phase1_trace_extend g f t assets st
  obtain ⟨s2, h2⟩ := route_tail_trace_extend g t (phase1 g f t assets st)
  exact ⟨s1 ++ s2, by rw [h2, h1, List.append_assoc]⟩

/-- Claim C1 (amended): once a first hop from `from_token` to a bridge asset
has succeeded, the search does NOT keep that bridge as the sole link asset:
if the first hop to WETH (the first bridge) succeeds and its second hop
fails, the very next `get_pool` call is the first hop to the NEXT bridge
asset DAI — the loop keeps trying later bridge assets, overwriting
`link_asset` on each later first-hop success (the counterexample shows a
later bridge's pools ending up in the returned route). The trace of
`get_pool` calls necessarily begins `(from, WETH), (to, WETH), (from, DAI)`. -/
theorem claim_C1 (g : GetPool) (f t : EvmToken)
    (hf : f ∉ routing_assets) (ht : t ∉ routing_assets) (hft : f ≠ t)
    (hW : (firstValidPool g f A_WETH).isSome = true)
    (hWt : firstValidPool g t A_WETH = none) :
    ((find_route_trace g f t).2).take 3 = [(f, A_WETH), (t, A_WETH), (f, A_DAI)] := by
  obtain ⟨p, hp⟩ := Option.isSome_iff_exists.mp hW
  have hglue : ¬(t ∈ routing_assets ∨ f ∈ routing_assets) := by
    rintro (h | h)
    · exact ht h
    · exact hf h
  have hWf : A_WETH ≠ f := by
    rintro rfl
    exact hf (by simp [routing_assets])
  have hDf : A_DAI ≠ f := by
    rintro rfl
    exact hf (by simp [routing_assets])
  simp only [find_route_trace, hglue, if_false, ite_false, hft]
  rw [if_neg (by simp)]
  simp only [routing_assets]
  rw [show phase1 g f t [A_WETH, A_DAI, A_USDT]
        { output := [], found_first_link := false, link_asset := none, trace := [] } =
      phase1 g f t [A_DAI, A_USDT]
        { output := [p], found_first_link := true, link_asset := some A_WETH,
          trace := [(f, A_WETH), (t, A_WETH)] } from by
    simp [phase1, hWf, find_pool_for, hp, hWt]]
  rcases h1 : firstValidPool g f A_DAI with _ | q
  · rw [show phase1 g f t [A_DAI, A_USDT]
          { output := [p], found_first_link := true, link_asset := some A_WETH,
            trace := [(f, A_WETH), (t, A_WETH)] } =
        phase1 g f t [A_USDT]
          { output := [p], found_first_link := false, link_asset := some A_WETH,
            trace := [(f, A_WETH), (t, A_WETH), (f, A_DAI)] } from by
      simp [phase1, hDf, find_pool_for, h1]]
    obtain ⟨s, hs⟩ := route_tail_phase1_trace g f t [A_USDT]
      { output := [p], found_first_link := false, link_asset := some A_WETH,
        trace := [(f, A_WETH), (t, A_WETH), (f, A_DAI)] }
    rw [hs]
    simp
  · rcases h2 : firstValidPool g t A_DAI with _ | r
    · rw [show phase1 g f t [A_DAI, A_USDT]
            { output := [p], found_first_link := true, link_asset := some A_WETH,
              trace := [(f, A_WETH), (t, A_WETH)] } =
          phase1 g f t [A_USDT]
            { output := [p, q], found_first_link := true, link_asset := some A_DAI,
              trace := [(f, A_WETH), (t, A_WETH), (f, A_DAI), (t, A_DAI)] } from by
        simp [phase1, hDf, find_pool_for, h1, h2]]
      obtain ⟨s, hs⟩ := route_tail_phase1_trace g f t [A_USDT]
        { output := [p, q], found_first_link := true, link_asset := some A_DAI,
          trace := [(f, A_WETH), (t, A_WETH), (f, A_DAI), (t, A_DAI)] }
      rw [hs]
      simp
    · rw [show phase1 g f t [A_DAI, A_USDT]
            { output := [p], found_first_link := true, link_asset := some A_WETH,
              trace := [(f, A_WETH), (t, A_WETH)] } =
          .inr ([p, q, r], [(f, A_WETH), (t, A_WETH), (f, A_DAI), (t, A_DAI)]) from by
        simp [phase1, hDf, find_pool_for, h1, h2]]
      simp [route_tail]

/-- Witness for claim C1's amended theorem at the concrete behaviour `gC1`. -/
theorem claim_C1_witness :
    ((find_route_trace gC1 tokF tokT).2).take 3 =
      [(tokF, A_WETH), (tokT, A_WETH), (tokF, A_DAI)] :=
  claim_C1 gC1 tokF tokT (by decide) (by decide) (by decide) (by decide) (by decide)

/-! ## Claim C3: the interior-hop orientation check -/

/-- The interior-hop orientation step as claim C3 states it (a definition
following the spec's words, for comparison with `interior_pass`, which is
translated from the code): each interior hop whose `token_0` differs from
the previous hop's token_1 is itself inverted, and no other element is
modified. -/
def interior_pass_claimed (l : List PoolPrice) : List PoolPrice :=
  l.mapIdx (fun i it =>
    if 1 ≤ i ∧ i ≤ l.length - 2 ∧ it.token_0 ≠ (l.getD (i - 1) default).token_1
    then it.swap_tokens else it)

/-- A token used only to build concrete pool prices. -/
def tokX : EvmToken := ⟨"0xX", some 18, .erc20⟩

/-- A token used only to build concrete pool prices. -/
def tokY : EvmToken := ⟨"0xY", some 18, .erc20⟩

/-- First hop of the claim C3 counterexample route. -/
def ppA : PoolPrice := ⟨2, tokF, tokX⟩

/-- Interior hop of the claim C3 counterexample route: its `token_0` differs
from the previous hop's `token_1`. -/
def ppB : PoolPrice := ⟨3, tokY, tokT⟩

/-- Last hop of the claim C3 counterexample route. -/
def ppC : PoolPrice := ⟨5, tokX, tokF⟩

/-- Claim C3 (counterexample): on the concrete three-hop route
`[ppA, ppB, ppC]` the interior hop `ppB` has `token_0 ≠ ppA.token_1`, so by
the claim `ppB` itself would be inverted and nothing else modified — but the
code's interior check (lines 239-241, `prices_and_tokens[pos - 1]` with
`pos = 0`, i.e. Python index `-1`) leaves `ppB` untouched and instead
inverts the LAST element `ppC`. -/
theorem claim_C3_counterexample :
    ppB.token_0 ≠ ppA.token_1 ∧
    interior_pass [ppA, ppB, ppC] = [ppA, ppB, ppC.swap_tokens] ∧
    interior_pass_claimed [ppA, ppB, ppC] = [ppA, ppB.swap_tokens, ppC] := by
  refine ⟨by decide, by rfl, by rfl⟩

/-- Claim C3 (amended): for a three-hop route the interior-hop check
compares the interior hop's `token_0` with the LAST hop's `token_1` and, on
mismatch, inverts the LAST hop; the interior hop itself (and the head) are
never modified by this check. -/
theorem claim_C3 (a b c : PoolPrice) :
    interior_pass [a, b, c] =
      if b.token_0 ≠ c.token_1 then [a, b, c.swap_tokens] else [a, b, c] := by
  by_cases h : b.token_0 = c.token_1
  · simp [interior_pass, interior_step, List.range_succ, h]
  · simp [interior_pass, interior_step, List.range_succ, h]

/-! ## Claim C4: the V2 pool resolver never returns an empty list -/

/-- A factory registry behaviour that knows no pair contract: it answers the
null address for every pair. -/
def getPairZero : EvmToken → EvmToken → Address := fun _ _ => ZERO_ADDRESS

/-- Claim C4 (counterexample): when the V2 factory registry returns the null
address, `get_pool` does NOT return the empty list — it returns the
singleton `[ZERO_ADDRESS]` (the filtering of null pools happens later, in
`_find_pool_for`). -/
theorem claim_C4_counterexample :
    getPairZero tokF tokT = ZERO_ADDRESS ∧
    v2_get_pool getPairZero tokF tokT = [ZERO_ADDRESS] ∧
    v2_get_pool getPairZero tokF tokT ≠ [] := by
  refine ⟨rfl, rfl, by decide⟩

/-- Claim C4 (amended): the V2 `get_pool` always returns the one-element
list holding the factory registry's answer, including the null address; a
null answer never contributes a pool to a route because `_find_pool_for`
skips null addresses. -/
theorem claim_C4 (getPair : EvmToken → EvmToken → Address) (t0 t1 : EvmToken) :
    v2_get_pool getPair t0 t1 = [getPair t0 t1] ∧
    (getPair t0 t1 = ZERO_ADDRESS →
      find_pool_for (v2_get_pool getPair) t0 t1 [] = (false, [])) := by
  constructor
  · rfl
  · intro h
    simp [find_pool_for, firstValidPool, v2_get_pool, h]

/-- Witness for claim C4's amended theorem at the all-null registry. -/
theorem claim_C4_witness :
    v2_get_pool getPairZero tokF tokT = [getPairZero tokF tokT] ∧
    find_pool_for (v2_get_pool getPairZero) tokF tokT [] = (false, []) :=
  ⟨(claim_C4 getPairZero tokF tokT).1, (claim_C4 getPairZero tokF tokT).2 rfl⟩

/-! ## Claim C5: empty route means price 0, not an error -/

theorem phase1_no_pools (g : GetPool) (f t : EvmToken)
    (hg : ∀ a b, firstValidPool g a b = none) :
    ∀ (assets : List EvmToken) (st : RouteState), st.found_first_link = false →
    ∃ st', phase1 g f t assets st = .inl st' ∧ st'.found_first_link = false
  | [], st => fun h => ⟨st, by simp [phase1], h⟩
  | a :: rest, st => fun h => by
    by_cases ha : a = f
    · obtain ⟨st', h1, h2⟩ := phase1_no_pools g f t hg rest st h
      refine ⟨st', ?_, h2⟩
      simp only [phase1, ha, ne_eq, not_true_eq_false, if_false, ite_false]
      exact h1
    · obtain ⟨st', h1, h2⟩ := phase1_no_pools g f t hg rest
        { output := st.output, found_first_link := false, link_asset := st.link_asset,
          trace := st.trace ++ [(f, a)] } rfl
      refine ⟨st', ?_, h2⟩
      simp only [phase1, ha, ne_eq, not_false_eq_true, if_true, ite_true, find_pool_for, hg]
      exact h1

theorem find_route_no_pools (g : GetPool)
    (hg : ∀ a b, firstValidPool g a b = none) (f t : EvmToken) :
    find_route g f t = [] := by
  have hfp : ∀ a b path, find_pool_for g a b path = (false, path) := fun a b path => by
    simp [find_pool_for, hg]
  simp only [find_route, find_route_trace, hfp, ite_self]
  rw [if_neg (by simp)]
  by_cases hft : f = t
  · simp [hft]
  · rw [if_neg hft]
    obtain ⟨st', hst', hff⟩ := phase1_no_pools g f t hg routing_assets
      { output := [], found_first_link := false, link_asset := none,
        trace := if t ∈ routing_assets ∨ f ∈ routing_assets then [(f, t)] else [] } rfl
    rw [hst']
    simp [route_tail, hff]

/-- Claim C5: for every supported (ERC20) pair of distinct resolved tokens,
when `find_route` returns an empty route `get_price` returns price 0 with no
error; in particular a `get_pool` behaviour with no valid pool anywhere
(hence no pool against any bridge asset) yields `.ok 0` from the facade. -/
theorem claim_C5 (g : GetPool) (h : GetPoolPrice) (tf tt : EvmToken)
    (hk1 : tf.token_kind = .erc20) (hk2 : tt.token_kind = .erc20) (hne : tf ≠ tt) :
    (find_route g tf tt = [] → get_price g h (.token tf) (.token tt) = .ok 0) ∧
    ((∀ a b, firstValidPool g a b = none) →
      get_price g h (.token tf) (.token tt) = .ok 0) := by
  have main : find_route g tf tt = [] →
      get_price g h (.token tf) (.token tt) = .ok 0 := by
    intro hr
    simp only [get_price]
    rw [if_neg (by simp), if_neg (by simp)]
    simp [hne, hk1, hk2, hr]
  exact ⟨main, fun hg => main (find_route_no_pools g hg tf tt)⟩

/-- A `get_pool` behaviour with no pools at all. -/
def g0 : GetPool := fun _ _ => []

/-- An arbitrary pool-price behaviour (never reached when the route is empty). -/
def h0 : GetPoolPrice := fun _ => .error .priceZero

/-- Witness for claim C5 at the poolless behaviour `g0`. -/
theorem claim_C5_witness :
    get_price g0 h0 (.token tokF) (.token tokT) = .ok 0 :=
  (claim_C5 g0 h0 tokF tokT rfl rfl (by decide)).2 (fun _ _ => rfl)

/-! ## Claim C6: V3 fee-tier selection by highest liquidity -/

/-- The V3 factory candidate at fee-tier index `i` (tiers in source order
3000, 500, 10000). -/
def cand (factory : ℕ → Address) (i : Fin 3) : Address :=
  factory (v3_fee_tiers.getD i 0)

/-- Claim C6: the V3 `get_pool` queries the three fixed fee tiers and (a)
when one non-null candidate has strictly the highest (nonzero) liquidity it
returns exactly that single address, regardless of tier order; (b) when
every candidate is null or has zero liquidity it returns the empty list. -/
theorem claim_C6 (factory : ℕ → Address) (liquidity : Address → ℕ) :
    (∀ i : Fin 3, cand factory i ≠ ZERO_ADDRESS → 0 < liquidity (cand factory i) →
      (∀ j : Fin 3, j ≠ i → cand factory j ≠ ZERO_ADDRESS →
        liquidity (cand factory j) < liquidity (cand factory i)) →
      v3_get_pool factory liquidity = [cand factory i]) ∧
    ((∀ j : Fin 3, cand factory j = ZERO_ADDRESS ∨ liquidity (cand factory j) = 0) →
      v3_get_pool factory liquidity = []) := by
  constructor
  · intro i h1 h2 h3
    fin_cases i
    · have h32 := h3 1 (by decide)
      have h33 := h3 2 (by decide)
      simp only [cand, v3_fee_tiers, List.getD] at h1 h2 h32 h33 ⊢
      simp only [v3_get_pool, v3_fee_tiers, List.map, List.foldl, List.getD]
      by_cases z2 : factory 500 = ZERO_ADDRESS <;>
        by_cases z3 : factory 10000 = ZERO_ADDRESS <;>
          simp_all <;> (try (split_ifs <;> simp_all)) <;> (try omega)
    · have h31 := h3 0 (by decide)
      have h33 := h3 2 (by decide)
      simp only [cand, v3_fee_tiers, List.getD] at h1 h2 h31 h33 ⊢
      simp only [v3_get_pool, v3_fee_tiers, List.map, List.foldl, List.getD]
      by_cases z1 : factory 3000 = ZERO_ADDRESS <;>
        by_cases z3 : factory 10000 = ZERO_ADDRESS <;>
          simp_all <;> (try (split_ifs <;> simp_all)) <;> (try omega)
    · have h31 := h3 0 (by decide)
      have h32 := h3 1 (by decide)
      simp only [cand, v3_fee_tiers, List.getD] at h1 h2 h31 h32 ⊢
      simp only [v3_get_pool, v3_fee_tiers, List.map, List.foldl, List.getD]
      by_cases z1 : factory 3000 = ZERO_ADDRESS <;>
        by_cases z2 : factory 500 = ZERO_ADDRESS <;>
          simp_all <;> (try (split_ifs <;> simp_all)) <;> try omega
  · intro hz
    have hz1 := hz 0
    have hz2 := hz 1
    have hz3 := hz 2
    simp only [cand, v3_fee_tiers, List.getD] at hz1 hz2 hz3
    simp only [v3_get_pool, v3_fee_tiers, List.map, List.foldl, List.getD]
    rcases hz1 with h | h <;> rcases hz2 with h2 | h2 <;> rcases hz3 with h3 | h3 <;>
      simp_all <;> split_ifs <;> simp_all

/-- A factory behaviour with three distinct non-null candidates. -/
def factory6 : ℕ → Address := fun fee =>
  if fee = 3000 then "0xA1" else if fee = 500 then "0xB2" else "0xC3"

/-- Liquidities [0, 500, 0] over `factory6`'s candidates. -/
def liq6 : Address → ℕ := fun a => if a = "0xB2" then 500 else 0

/-- Witness for claim C6: liquidities [0, 500, 0] select the middle-tier
candidate; all-zero liquidity yields the empty list. -/
theorem claim_C6_witness :
    v3_get_pool factory6 liq6 = ["0xB2"] ∧
    v3_get_pool factory6 (fun _ => 0) = [] :=
  ⟨(claim_C6 factory6 liq6).1 1 (by decide) (by decide) (by decide),
   (claim_C6 factory6 (fun _ => 0)).2 (fun _ => Or.inr rfl)⟩

/-! ## Claims C7-C10: pool price formulas, liquidity floor, inversion, oracle name -/

/-- Claim C7: whenever the V2 `get_pool_price` returns for a pool with
known decimals `d0, d1` and raw reserves `r0, r1`, the returned price is
`(r1/r0) * 10^(d0-d1)`; whenever the V3 `get_pool_price` returns, the price
is `(sqrtPriceX96^2 / 2^192) * 10^(d0-d1)`. -/
theorem claim_C7 (t0 t1 : EvmToken) (d0 d1 : ℕ)
    (h0 : t0.decimals = some d0) (h1 : t1.decimals = some d1) :
    (∀ (r0 r1 : ℕ) (usd : EvmToken → ℚ) (pp : PoolPrice),
      v2_get_pool_price (some t0) (some t1) r0 r1 usd = .ok pp →
      pp.price = ((r1 : ℚ) / r0) * 10 ^ ((d0 : ℤ) - d1)) ∧
    (∀ (s : ℕ) (pp : PoolPrice),
      v3_get_pool_price t0 t1 s = .ok pp →
      pp.price = ((s : ℚ) * s / 2 ^ 192) * 10 ^ ((d0 : ℤ) - d1)) := by
  constructor
  · intro r0 r1 usd pp hok
    simp only [v2_get_pool_price, h0, h1] at hok
    split_ifs at hok
    simp only [Except.ok.injEq] at hok
    rw [← hok]
  · intro s pp hok
    simp only [v3_get_pool_price, h0, h1] at hok
    split_ifs at hok
    simp only [Except.ok.injEq] at hok
    rw [← hok]

/-- Claim C8: in the V2 `get_pool_price` with known decimals and nonzero
reserves, if either side has a known (nonzero) USD price and that side's
decimal-normalized reserve value is below the fixed 5000 floor, a
`DefiPoolError` is raised; and when the USD price of both sides is unknown
(zero) the liquidity-floor check raises nothing and the price is returned. -/
theorem claim_C8 (t0 t1 : EvmToken) (d0 d1 r0 r1 : ℕ) (usd : EvmToken → ℚ)
    (h0 : t0.decimals = some d0) (h1 : t1.decimals = some d1)
    (hr0 : r0 ≠ 0) (hr1 : r1 ≠ 0) :
    ((usd t0 ≠ 0 ∧ usd t0 * token_normalized_value r0 d0 < SINGLE_SIDE_USD_POOL_LIMIT) ∨
      (usd t1 ≠ 0 ∧ usd t1 * token_normalized_value r1 d1 < SINGLE_SIDE_USD_POOL_LIMIT) →
      v2_get_pool_price (some t0) (some t1) r0 r1 usd = .error .tooLowReserves) ∧
    (usd t0 = 0 → usd t1 = 0 →
      v2_get_pool_price (some t0) (some t1) r0 r1 usd =
        .ok { price := ((r1 : ℚ) / r0) * 10 ^ ((d0 : ℤ) - d1),
              token_0 := t0, token_1 := t1 }) := by
  constructor
  · intro hfloor
    simp only [v2_get_pool_price, h0, h1]
    rw [if_neg (by tauto)]
    rcases hfloor with hf | hf
    · rw [if_pos hf]
    · by_cases hc0 : usd t0 ≠ 0 ∧
          usd t0 * token_normalized_value r0 d0 < SINGLE_SIDE_USD_POOL_LIMIT
      · rw [if_pos hc0]
      · rw [if_neg hc0, if_pos hf]
  · intro hz0 hz1
    simp only [v2_get_pool_price, h0, h1]
    rw [if_neg (by tauto)]
    rw [if_neg (by simp [hz0]), if_neg (by simp [hz1])]

/-- Claim C9: `swap_tokens` is involutive on pool prices with nonzero
price — the price is restored exactly (the embedding's `ℚ` arithmetic is
exact) and the tokens are restored exactly. -/
theorem claim_C9 (p : PoolPrice) (hp : p.price ≠ 0) :
    p.swap_tokens.swap_tokens = p := by
  rcases p with ⟨pr, a, b⟩
  simp [PoolPrice.swap_tokens, one_div_one_div]

/-- Witness for claim C9 at a concrete pool price. -/
theorem claim_C9_witness :
    PoolPrice.swap_tokens (PoolPrice.swap_tokens ⟨2, tokF, tokT⟩) = ⟨2, tokF, tokT⟩ :=
  claim_C9 ⟨2, tokF, tokT⟩ (by decide)

/-- Claim C10: `UniswapV2Oracle.__init__` passes version 3 to the shared
base constructor (line 386), so both concrete variants report the oracle
name 'Uniswap V3 oracle' and are indistinguishable by name. -/
theorem claim_C10 :
    uniswap_oracle_name UniswapV2Oracle_version = "Uniswap V3 oracle" ∧
    uniswap_oracle_name UniswapV3Oracle_version = "Uniswap V3 oracle" ∧
    uniswap_oracle_name UniswapV2Oracle_version =
      uniswap_oracle_name UniswapV3Oracle_version :=
  ⟨rfl, rfl, rfl⟩

/-- A zero-decimals token for the liquidity-floor witness. -/
def tokD0A : EvmToken := ⟨"0xD0A", some 0, .erc20⟩

/-- A second zero-decimals token for the liquidity-floor witness. -/
def tokD0B : EvmToken := ⟨"0xD0B", some 0, .erc20⟩

/-- A USD spot-price behaviour knowing only `tokD0A` (price 1). -/
def usdW : EvmToken → ℚ := fun t => if t = tokD0A then 1 else 0

/-- Witness for claim C7: concrete V2 and V3 pools with equal decimals. -/
theorem claim_C7_witness :
    (∃ pp : PoolPrice,
      v2_get_pool_price (some tokF) (some tokT) 5 10 (fun _ => 0) = .ok pp ∧
      pp.price = ((10 : ℚ) / 5) * 10 ^ ((18 : ℤ) - 18)) ∧
    (∃ pp : PoolPrice,
      v3_get_pool_price tokF tokT 2 = .ok pp ∧
      pp.price = ((2 : ℚ) * 2 / 2 ^ 192) * 10 ^ ((18 : ℤ) - 18)) := by
  constructor
  · exact ⟨_, rfl, (claim_C7 tokF tokT 18 18 rfl rfl).1 5 10 (fun _ => 0) _ rfl⟩
  · have hok : v3_get_pool_price tokF tokT 2 =
        .ok ⟨(2 : ℚ) * 2 / 2 ^ 192 * 10 ^ ((18 : ℤ) - 18), tokF, tokT⟩ := by
      simp [v3_get_pool_price, tokF, tokT]
    exact ⟨_, hok, (claim_C7 tokF tokT 18 18 rfl rfl).2 2 _ hok⟩

/-- Witness for claim C8: reserve 100 of a price-1 zero-decimals token is
worth 100 USD < 5000, raising the floor error; with both USD prices unknown
the same pool state succeeds. -/
theorem claim_C8_witness :
    v2_get_pool_price (some tokD0A) (some tokD0B) 100 7 usdW =
      .error .tooLowReserves ∧
    (∃ pp : PoolPrice,
      v2_get_pool_price (some tokD0A) (some tokD0B) 100 7 (fun _ => 0) = .ok pp) :=
  ⟨(claim_C8 tokD0A tokD0B 0 0 100 7 usdW rfl rfl (by decide) (by decide)).1
      (Or.inl ⟨by simp [usdW], by
        simp [usdW, token_normalized_value, SINGLE_SIDE_USD_POOL_LIMIT]
        decide⟩),
   ⟨_, (claim_C8 tokD0A tokD0B 0 0 100 7 (fun _ => 0) rfl rfl (by decide)
      (by decide)).2 rfl rfl⟩⟩
